import Mathlib

/-!
# Verification of the coordinate round-trip toolkit

This file gives a shallow embedding, in exact rational arithmetic, of the two
core scripts of the repository:

* `scripts/extract_oed_star_metadata.py` — the inverse coordinate-recovery
  pipeline (affine fit from axis ticks, marker centroid, per-artifact batch
  loop of `main`);
* `notes/assets/generate_partition_kernel_pullback_svg.py` — the forward
  figure synthesis (layout transforms, curve sampling, partition-bin
  probabilities).

Modelling conventions:

* Python floats are modelled as rationals (`ℚ`); float arithmetic on the
  decimal literals these scripts handle is exact in this model, so equalities
  stated "up to floating-point epsilon" become exact equalities.
* Fallible Python code (functions that raise `ValueError`) is modelled with
  `Except String`, carrying the exact message string of the `raise` site.
* The transcendental helpers `stdnorm_pdf` / `stdnorm_cdf` (thin wrappers
  around `math.exp` / `math.erf`) are not expressible as computable rational
  functions; theorems about code that merely *pipes their values through*
  quantify over an arbitrary function `ℚ → ℚ` in their place, so every
  statement below holds in particular for the float implementations.
* An artifact (one rendered SVG) is represented by the data the fixed
  regular-expression scans of the extractor recover from its markup: the
  `(pixel, value)` pairs matched by the tick-label patterns in document
  order, and the `points` attribute of the first `fill='#ffd92f'` polygon
  when one is present.
-/

namespace StarMeta

/-- `Affine1D` from `extract_oed_star_metadata.py`: `value = a * px + b`. -/
structure Affine1D where
  a : ℚ
  b : ℚ
  deriving DecidableEq, Repr

/-- `Affine1D.__call__`: applying the map to a pixel coordinate. -/
def Affine1D.apply (m : Affine1D) (px : ℚ) : ℚ := m.a * px + m.b

/-- `_fit_affine`: fit the one-dimensional affine map through two
`(pixel, value)` reference points, rejecting a zero-length pixel baseline. -/
def fit_affine (p1 p2 : ℚ × ℚ) : Except String Affine1D :=
  let (px1, v1) := p1
  let (px2, v2) := p2
  if px2 = px1 then .error "Degenerate affine fit"
  else
    let a := (v2 - v1) / (px2 - px1)
    let b := v1 - a * px1
    .ok ⟨a, b⟩

/-- Digit run to a natural number, as `int`/`float` read decimal digits. -/
def digitsVal (cs : List Char) : ℕ :=
  cs.foldl (fun acc c => acc * 10 + (c.toNat - 48)) 0

/-- Exponent suffix of a float literal (`e`/`E`, optional sign, digits);
`some 1` on empty input, `none` on trailing garbage. -/
def parseExp? : List Char → Option ℚ
  | [] => some 1
  | c :: rest =>
    if c = 'e' ∨ c = 'E' then
      let (neg, rest2) : Bool × List Char :=
        match rest with
        | '-' :: r => (true, r)
        | '+' :: r => (false, r)
        | r => (false, r)
      let ds := rest2.takeWhile Char.isDigit
      let rest3 := rest2.dropWhile Char.isDigit
      if ds = [] ∨ rest3 ≠ [] then none
      else some (if neg then (1 : ℚ) / 10 ^ digitsVal ds else (10 : ℚ) ^ digitsVal ds)
    else none

/-- Python's `float()` on the decimal literals occurring in these SVGs:
optional sign, integer part, optional fractional part, optional exponent.
Returns `none` exactly when `float()` would raise `ValueError` on such a
token (the model does not accept `inf`/`nan`/underscored literals, which
never occur in this corpus). -/
def parseFloat? (s : List Char) : Option ℚ :=
  let (sign, cs) : ℚ × List Char :=
    match s with
    | '-' :: rest => (-1, rest)
    | '+' :: rest => (1, rest)
    | rest => (1, rest)
  let intPart := cs.takeWhile Char.isDigit
  let cs2 := cs.dropWhile Char.isDigit
  match cs2 with
  | '.' :: rest =>
    let frac := rest.takeWhile Char.isDigit
    let cs3 := rest.dropWhile Char.isDigit
    if intPart = [] ∧ frac = [] then none
    else
      (parseExp? cs3).map fun e =>
        sign * ((digitsVal intPart : ℚ) + (digitsVal frac : ℚ) / 10 ^ frac.length) * e
  | _ =>
    if intPart = [] then none
    else (parseExp? cs2).map fun e => sign * (digitsVal intPart : ℚ) * e

/-- Maximal whitespace-free runs of a character list (the token stream of
`re.split(r"\s+", points.strip())` with empty tokens already dropped, which
`_parse_points` skips anyway). Auxiliary recursion with an accumulator. -/
def splitTokensAux : List Char → List Char → List (List Char)
  | [], acc => if acc = [] then [] else [acc.reverse]
  | c :: rest, acc =>
    if c.isWhitespace then
      if acc = [] then splitTokensAux rest []
      else acc.reverse :: splitTokensAux rest []
    else splitTokensAux rest (c :: acc)

/-- Tokenize a `points` attribute on whitespace. -/
def splitTokens (cs : List Char) : List (List Char) := splitTokensAux cs []

/-- One loop iteration of `_parse_points`: a token without a comma is
skipped, otherwise it is split at the first comma and both halves must parse
as floats; any failure skips the token. -/
def parseVertex? (token : List Char) : Option (ℚ × ℚ) :=
  if ¬ token.contains ',' then none
  else
    let xs := token.takeWhile (· ≠ ',')
    let ys := (token.dropWhile (· ≠ ',')).drop 1
    match parseFloat? xs, parseFloat? ys with
    | some x, some y => some (x, y)
    | _, _ => none

/-- `_parse_points`: the usable vertices of a polygon `points` attribute,
malformed tokens skipped. -/
def parse_points (points : String) : List (ℚ × ℚ) :=
  (splitTokens points.toList).filterMap parseVertex?

/-- `_centroid_xy`: arithmetic mean of the vertex coordinates; raises on an
empty vertex list. -/
def centroid_xy (pts : List (ℚ × ℚ)) : Except String (ℚ × ℚ) :=
  if pts.isEmpty then .error "No points"
  else .ok ((pts.map Prod.fst).sum / pts.length, (pts.map Prod.snd).sum / pts.length)

/-- Stable insertion of a tick in front of the first strictly larger pixel
coordinate (ties keep original order, as Python's stable `sorted`). -/
def insertByPixel (x : ℚ × ℚ) : List (ℚ × ℚ) → List (ℚ × ℚ)
  | [] => [x]
  | y :: ys => if y.1 < x.1 then y :: insertByPixel x ys else x :: y :: ys

/-- `sorted(ticks, key=lambda t: t[0])`: stable sort by pixel coordinate. -/
def sortByPixel (l : List (ℚ × ℚ)) : List (ℚ × ℚ) := l.foldr insertByPixel []

/-- `_extract_ticks`: require at least two labeled ticks per axis, sort each
axis's ticks by pixel coordinate, and fit each axis's affine map through the
two extremal ticks. -/
def extract_ticks (x_ticks y_ticks : List (ℚ × ℚ)) :
    Except String (Affine1D × Affine1D) :=
  if x_ticks.length < 2 ∨ y_ticks.length < 2 then
    .error "Could not find enough axis ticks"
  else do
    let xs := sortByPixel x_ticks
    let ys := sortByPixel y_ticks
    let x_map ← fit_affine xs.head! xs.getLast!
    let y_map ← fit_affine ys.head! ys.getLast!
    return (x_map, y_map)

/-- `_extract_star_xy`: locate the star polygon (here: its `points`
attribute, when the `STAR_POLY_RE` pattern matched) and return the centroid
of its parsed vertices. -/
def extract_star_xy (star : Option String) : Except String (ℚ × ℚ) :=
  match star with
  | none => .error "Star polygon not found"
  | some pointsAttr => centroid_xy (parse_points pointsAttr)

/-- One artifact of the batch, represented by what the extractor's fixed
regular expressions recover from its markup (see the file header). -/
structure Artifact where
  name : String
  x_ticks : List (ℚ × ℚ)
  y_ticks : List (ℚ × ℚ)
  star : Option String
  deriving DecidableEq, Repr

/-- `re.search(r"_step_(\d{3})\.svg$", name)` followed by `int(...)`:
the step index when the name ends in `_step_` + three digits + `.svg`. -/
def parseStepIndex? (name : String) : Option ℕ :=
  match name.toList.reverse with
  | 'g' :: 'v' :: 's' :: '.' :: d1 :: d2 :: d3 :: '_' :: 'p' :: 'e' :: 't' :: 's' :: '_' :: _ =>
    if d1.isDigit ∧ d2.isDigit ∧ d3.isDigit then
      some ((d3.toNat - 48) * 100 + (d2.toNat - 48) * 10 + (d1.toNat - 48))
    else none
  | _ => none

/-- The per-artifact body of `main`'s loop, up to the `mapping` insertion:
`ok none` when the filename does not match the step pattern (`continue`),
`ok (some (key, (x1, x2)))` on success, and `error` when tick extraction or
marker location raises. -/
def recover_artifact (art : Artifact) :
    Except String (Option (String × (ℚ × ℚ))) :=
  match parseStepIndex? art.name with
  | none => .ok none
  | some labels_used => do
    let (x_map, y_map) ← extract_ticks art.x_ticks art.y_ticks
    let (star_px_x, star_px_y) ← extract_star_xy art.star
    return some (toString labels_used, (x_map.apply star_px_x, y_map.apply star_px_y))

/-- `mapping[key] = value` on a Python dict: overwrite in place when the key
exists (keeping its position), otherwise append. -/
def upsert (m : List (String × (ℚ × ℚ))) (k : String) (v : ℚ × ℚ) :
    List (String × (ℚ × ℚ)) :=
  match m with
  | [] => [(k, v)]
  | (k', v') :: rest => if k' = k then (k, v) :: rest else (k', v') :: upsert rest k v

/-- One iteration of `main`'s loop acting on the accumulated `mapping`. -/
def process_step (mapping : List (String × (ℚ × ℚ))) (art : Artifact) :
    Except String (List (String × (ℚ × ℚ))) :=
  match recover_artifact art with
  | .error e => .error e
  | .ok none => .ok mapping
  | .ok (some (k, v)) => .ok (upsert mapping k v)

/-- `main`'s batch loop over the (name-sorted) artifact list. An uncaught
exception from any iteration propagates out of the loop (`.error`), in which
case the output file is never written and the process exits unsuccessfully;
on `.ok mapping` the mapping is written out and `main` returns `0`. -/
def process_all (arts : List Artifact) :
    Except String (List (String × (ℚ × ℚ))) :=
  arts.foldlM process_step []

end StarMeta

namespace StarMeta

/-- C2: affine round-trip. For any two reference pairs with distinct pixel
coordinates, the fit succeeds and applying the fitted map to each defining
pixel returns that pair's defining value exactly. -/
theorem affine_round_trip (p1 p2 : ℚ × ℚ) (h : p1.1 ≠ p2.1) :
    ∃ m, fit_affine p1 p2 = .ok m ∧ m.apply p1.1 = p1.2 ∧ m.apply p2.1 = p2.2 := by
  obtain ⟨px1, v1⟩ := p1
  obtain ⟨px2, v2⟩ := p2
  simp only at h
  have hne : px2 - px1 ≠ 0 := sub_ne_zero.mpr (Ne.symm h)
  refine ⟨⟨(v2 - v1) / (px2 - px1), v1 - (v2 - v1) / (px2 - px1) * px1⟩, ?_, ?_, ?_⟩
  · simp [fit_affine, Ne.symm h]
  · simp only [Affine1D.apply]
    ring
  · simp only [Affine1D.apply]
    field_simp
    ring

/-- Witness for C2 at the reference pairs (100, -1) and (500, 1). -/
theorem affine_round_trip_witness :
    ∃ m, fit_affine ((100 : ℚ), -1) ((500 : ℚ), 1) = .ok m ∧
      m.apply 100 = -1 ∧ m.apply 500 = 1 := by
  have h := affine_round_trip ((100 : ℚ), -1) ((500 : ℚ), 1) (by norm_num)
  simpa using h

/-- C3: degenerate rejection. Whenever the two reference points share a
pixel coordinate (in particular for `fit(p, p)`), the fit raises the
degenerate-fit error instead of returning a map. -/
theorem degenerate_fit_rejected (p1 p2 : ℚ × ℚ) (h : p1.1 = p2.1) :
    fit_affine p1 p2 = .error "Degenerate affine fit" := by
  obtain ⟨px1, v1⟩ := p1
  obtain ⟨px2, v2⟩ := p2
  simp only at h
  simp [fit_affine, h]

/-- Witness for C3 at the identical reference pair (3, 7). -/
theorem degenerate_fit_rejected_witness :
    fit_affine ((3 : ℚ), 7) ((3 : ℚ), 7) = .error "Degenerate affine fit" :=
  degenerate_fit_rejected ((3 : ℚ), 7) ((3 : ℚ), 7) rfl

/-- C4, counterexample: the fit happily constructs a map with slope `0` from
two reference points with distinct pixels but equal values, refuting the
invariant that every successfully constructed map has non-zero slope. -/
theorem fit_zero_slope_counterexample :
    ∃ m, fit_affine ((0 : ℚ), 5) ((1 : ℚ), 5) = .ok m ∧ m.a = 0 :=
  ⟨⟨0, 5⟩, by with_unfolding_all rfl, rfl⟩

/-- C4, amended: every map the fit successfully constructs has a
well-defined (finite, in the exact model) slope, and that slope is zero
precisely when the two reference values are equal — only coincident pixel
coordinates are rejected. -/
theorem fit_slope_zero_iff (p1 p2 : ℚ × ℚ) (m : Affine1D)
    (h : fit_affine p1 p2 = .ok m) : m.a = 0 ↔ p1.2 = p2.2 := by
  obtain ⟨px1, v1⟩ := p1
  obtain ⟨px2, v2⟩ := p2
  simp only
  by_cases hpx : px2 = px1
  · simp [fit_affine, hpx] at h
  · simp [fit_affine, hpx] at h
    have hm : m.a = (v2 - v1) / (px2 - px1) := by
      rw [← h]
    rw [hm, div_eq_zero_iff]
    constructor
    · rintro (h0 | h0)
      · linarith [sub_eq_zero.mp h0]
      · exact absurd (sub_eq_zero.mp h0) hpx
    · intro hv
      exact Or.inl (by rw [hv]; ring)

/-- Witness for C4's amended theorem at the fit of (0, 5) and (1, 5). -/
theorem fit_slope_zero_iff_witness :
    (⟨0, 5⟩ : Affine1D).a = 0 ↔ (((0 : ℚ), (5 : ℚ))).2 = (((1 : ℚ), (5 : ℚ))).2 :=
  fit_slope_zero_iff ((0 : ℚ), 5) ((1 : ℚ), 5) ⟨0, 5⟩ (by with_unfolding_all rfl)

/-- C8: marker centroid. For every polygon points string with at least one
parseable vertex, the marker locator succeeds and returns the arithmetic
mean of the usable vertices' x- and y-coordinates; in particular on a
points string carrying the vertices (0,0), (2,0), (1,2) interleaved with
malformed tokens (skipped, not counted) the centroid is (1, 2/3), which is
0.667 within tolerance. -/
theorem marker_centroid (s : String) (h : parse_points s ≠ []) :
    extract_star_xy (some s) =
      .ok (((parse_points s).map Prod.fst).sum / (parse_points s).length,
           ((parse_points s).map Prod.snd).sum / (parse_points s).length) ∧
    extract_star_xy (some "0,0 2,0 zz,3 1,2 5") = .ok (1, 2 / 3) ∧
    |(2 : ℚ) / 3 - 0.667| ≤ 1 / 100 := by
  refine ⟨?_, by with_unfolding_all rfl, by rw [abs_le]; norm_num⟩
  have hne : (parse_points s).isEmpty = false := by
    simpa [List.isEmpty_iff] using h
  simp [extract_star_xy, centroid_xy, hne]

/-- Witness for C8 at the concrete points string. -/
theorem marker_centroid_witness :
    extract_star_xy (some "0,0 2,0 zz,3 1,2 5") =
      .ok (((parse_points "0,0 2,0 zz,3 1,2 5").map Prod.fst).sum /
             (parse_points "0,0 2,0 zz,3 1,2 5").length,
           ((parse_points "0,0 2,0 zz,3 1,2 5").map Prod.snd).sum /
             (parse_points "0,0 2,0 zz,3 1,2 5").length) ∧
    extract_star_xy (some "0,0 2,0 zz,3 1,2 5") = .ok (1, 2 / 3) ∧
    |(2 : ℚ) / 3 - 0.667| ≤ 1 / 100 :=
  marker_centroid "0,0 2,0 zz,3 1,2 5"
    (by simp [show parse_points "0,0 2,0 zz,3 1,2 5" = [((0 : ℚ), (0 : ℚ)), (2, 0), (1, 2)]
          from by with_unfolding_all rfl])

/-- Minimum of a list of rationals (0 on the empty list, which never arises
below: it is only applied to the vertex lists of a successful centroid). -/
def listMin : List ℚ → ℚ
  | [] => 0
  | [x] => x
  | x :: y :: rest => min x (listMin (y :: rest))

/-- Maximum of a list of rationals (0 on the empty list). -/
def listMax : List ℚ → ℚ
  | [] => 0
  | [x] => x
  | x :: y :: rest => max x (listMax (y :: rest))

theorem listMin_le_of_mem : ∀ {l : List ℚ} {x : ℚ}, x ∈ l → listMin l ≤ x
  | [x], _, h => by
    rcases List.mem_singleton.mp h with rfl
    exact le_refl _
  | x :: y :: rest, z, h => by
    rcases List.mem_cons.mp h with rfl | h'
    · exact min_le_left _ _
    · exact le_trans (min_le_right _ _) (listMin_le_of_mem h')

theorem le_listMax_of_mem : ∀ {l : List ℚ} {x : ℚ}, x ∈ l → x ≤ listMax l
  | [x], _, h => by
    rcases List.mem_singleton.mp h with rfl
    exact le_refl _
  | x :: y :: rest, z, h => by
    rcases List.mem_cons.mp h with rfl | h'
    · exact le_max_left _ _
    · exact le_trans (le_listMax_of_mem h') (le_max_right _ _)

theorem mul_length_le_sum (l : List ℚ) (lo : ℚ) (h : ∀ x ∈ l, lo ≤ x) :
    lo * l.length ≤ l.sum := by
  induction l with
  | nil => simp
  | cons a rest ih =>
    have ha := h a (List.mem_cons_self a rest)
    have hrest := ih fun x hx => h x (List.mem_cons_of_mem a hx)
    simp only [List.length_cons, List.sum_cons]
    push_cast
    linarith

theorem sum_le_mul_length (l : List ℚ) (hi : ℚ) (h : ∀ x ∈ l, x ≤ hi) :
    l.sum ≤ hi * l.length := by
  induction l with
  | nil => simp
  | cons a rest ih =>
    have ha := h a (List.mem_cons_self a rest)
    have hrest := ih fun x hx => h x (List.mem_cons_of_mem a hx)
    simp only [List.length_cons, List.sum_cons]
    push_cast
    linarith

/-- The arithmetic mean of a non-empty list lies between its minimum and
its maximum. -/
theorem mean_between_min_max (l : List ℚ) (hl : l ≠ []) :
    listMin l ≤ l.sum / l.length ∧ l.sum / l.length ≤ listMax l := by
  have hlen : (0 : ℚ) < l.length := by
    have := List.length_pos.mpr hl
    exact_mod_cast this
  constructor
  · rw [le_div_iff₀ hlen]
    exact mul_length_le_sum l (listMin l) fun x hx => listMin_le_of_mem hx
  · rw [div_le_iff₀ hlen]
    exact sum_le_mul_length l (listMax l) fun x hx => le_listMax_of_mem hx

/-- C10: centroid containment. For every vertex list on which the centroid
computation succeeds, the returned centroid lies within the axis-aligned
bounding box of the vertices. -/
theorem centroid_within_bbox (pts : List (ℚ × ℚ)) (c : ℚ × ℚ)
    (h : centroid_xy pts = .ok c) :
    listMin (pts.map Prod.fst) ≤ c.1 ∧ c.1 ≤ listMax (pts.map Prod.fst) ∧
    listMin (pts.map Prod.snd) ≤ c.2 ∧ c.2 ≤ listMax (pts.map Prod.snd) := by
  have hne : pts ≠ [] := by
    intro hnil
    simp [centroid_xy, hnil] at h
  have hemp : pts.isEmpty = false := by simpa [List.isEmpty_iff] using hne
  have hc : c = ((pts.map Prod.fst).sum / pts.length,
                 (pts.map Prod.snd).sum / pts.length) := by
    simpa [centroid_xy, hemp, eq_comm] using h
  have hxne : pts.map Prod.fst ≠ [] := by simpa using hne
  have hyne : pts.map Prod.snd ≠ [] := by simpa using hne
  have hx := mean_between_min_max (pts.map Prod.fst) hxne
  have hy := mean_between_min_max (pts.map Prod.snd) hyne
  rw [List.length_map] at hx hy
  rw [hc]
  exact ⟨hx.1, hx.2, hy.1, hy.2⟩

/-- Witness for C10 at the vertex list [(0,0), (2,0), (1,2)]. -/
theorem centroid_within_bbox_witness :
    listMin ([((0 : ℚ), (0 : ℚ)), (2, 0), (1, 2)].map Prod.fst) ≤ ((1 : ℚ), (2 : ℚ) / 3).1 ∧
    ((1 : ℚ), (2 : ℚ) / 3).1 ≤ listMax ([((0 : ℚ), (0 : ℚ)), (2, 0), (1, 2)].map Prod.fst) ∧
    listMin ([((0 : ℚ), (0 : ℚ)), (2, 0), (1, 2)].map Prod.snd) ≤ ((1 : ℚ), (2 : ℚ) / 3).2 ∧
    ((1 : ℚ), (2 : ℚ) / 3).2 ≤ listMax ([((0 : ℚ), (0 : ℚ)), (2, 0), (1, 2)].map Prod.snd) :=
  centroid_within_bbox [((0 : ℚ), (0 : ℚ)), (2, 0), (1, 2)] (1, 2 / 3)
    (by with_unfolding_all rfl)

theorem process_step_of_error (m : List (String × (ℚ × ℚ))) (art : Artifact)
    (e : String) (h : recover_artifact art = .error e) :
    process_step m art = .error e := by
  simp [process_step, h]

/-- An extraction error on any artifact of the batch makes the whole fold
error out, whatever the accumulated mapping was when the loop reached it. -/
theorem foldl_error_of_mem :
    ∀ (arts : List Artifact) (init : List (String × (ℚ × ℚ)))
      (art : Artifact) (e : String), art ∈ arts → recover_artifact art = .error e →
      ∃ e', List.foldlM process_step init arts = .error e'
  | [], _, _, _, hmem, _ => absurd hmem (List.not_mem_nil _)
  | a :: rest, init, art, e, hmem, herr => by
    rw [List.foldlM_cons]
    rcases List.mem_cons.mp hmem with heq | hmem'
    · exact ⟨e, by rw [process_step_of_error init a e (heq ▸ herr)]; rfl⟩
    · cases hstep : process_step init a with
      | error e0 => exact ⟨e0, rfl⟩
      | ok init' =>
        obtain ⟨e', he'⟩ := foldl_error_of_mem rest init' art e hmem' herr
        exact ⟨e', by rw [show (Except.ok init' >>= fun b => List.foldlM process_step b rest) = List.foldlM process_step init' rest from rfl]; exact he'⟩

/-- C1, counterexample: in a two-artifact corpus whose first artifact has no
tick marks (and whose second is fully recoverable), the batch loop does not
skip the bad artifact and write one partial entry — it propagates the
extraction error, so nothing is written and the run fails. -/
theorem batch_abort_counterexample :
    process_all
      [⟨"a_step_001.svg", [], [], none⟩,
       ⟨"a_step_002.svg", [(100, -1), (500, 1)], [(50, 2), (450, 0)], some "300,250"⟩]
      = .error "Could not find enough axis ticks" := by
  with_unfolding_all rfl

/-- C1, amended: only artifacts whose filename fails the step pattern are
skipped (the loop continues past them); an extraction failure on any
artifact instead aborts the entire batch — the error propagates out of the
loop, so no partial mapping is produced and the run does not exit
successfully. -/
theorem extraction_failure_aborts_batch (arts : List Artifact) (art : Artifact)
    (e : String) (hmem : art ∈ arts) (herr : recover_artifact art = .error e) :
    (∀ mapping, process_all arts ≠ .ok mapping) ∧
    (∀ (m : List (String × (ℚ × ℚ))) (a : Artifact),
      parseStepIndex? a.name = none → process_step m a = .ok m) := by
  constructor
  · intro mapping hok
    obtain ⟨e', he'⟩ := foldl_error_of_mem arts [] art e hmem herr
    rw [process_all] at hok
    rw [he'] at hok
    cases hok
  · intro m a hname
    simp [process_step, recover_artifact, hname]

/-- Witness for C1's amended theorem on a singleton corpus whose artifact
has no tick marks. -/
theorem extraction_failure_aborts_batch_witness :
    (∀ mapping, process_all [⟨"a_step_001.svg", [], [], none⟩] ≠ .ok mapping) ∧
    (∀ (m : List (String × (ℚ × ℚ))) (a : Artifact),
      parseStepIndex? a.name = none → process_step m a = .ok m) :=
  extraction_failure_aborts_batch [⟨"a_step_001.svg", [], [], none⟩]
    ⟨"a_step_001.svg", [], [], none⟩ "Could not find enough axis ticks"
    (List.mem_singleton.mpr rfl) (by with_unfolding_all rfl)

/-- C5, counterexample: two distinct, fully recoverable artifacts whose
names parse to the same frame index produce a single silently overwritten
entry (the later artifact's values) instead of any flagged collision. -/
theorem duplicate_index_overwrite_counterexample :
    process_all
      [⟨"a_step_001.svg", [(100, -1), (500, 1)], [(50, 2), (450, 0)], some "300,250"⟩,
       ⟨"b_step_001.svg", [(100, -1), (500, 1)], [(50, 2), (450, 0)], some "100,50"⟩]
      = .ok [("1", (-1, 2))] := by
  with_unfolding_all rfl

/-- C5, amended: a duplicate frame index is not flagged; the artifact
processed later silently overwrites the earlier artifact's entry in the
output mapping (last write wins). -/
theorem duplicate_index_last_write_wins (a b : Artifact) (k : String)
    (va vb : ℚ × ℚ) (ha : recover_artifact a = .ok (some (k, va)))
    (hb : recover_artifact b = .ok (some (k, vb))) :
    process_all [a, b] = .ok [(k, vb)] := by
  simp [process_all, List.foldlM, process_step, ha, hb, upsert, Bind.bind, Except.bind,
    Pure.pure, Except.pure]

/-- Witness for C5's amended theorem at the two concrete artifacts of the
counterexample, recovered to (0, 1) and (-1, 2) respectively. -/
theorem duplicate_index_last_write_wins_witness :
    process_all
      [⟨"a_step_001.svg", [(100, -1), (500, 1)], [(50, 2), (450, 0)], some "300,250"⟩,
       ⟨"b_step_001.svg", [(100, -1), (500, 1)], [(50, 2), (450, 0)], some "100,50"⟩]
      = .ok [("1", ((-1 : ℚ), (2 : ℚ)))] :=
  duplicate_index_last_write_wins
    ⟨"a_step_001.svg", [(100, -1), (500, 1)], [(50, 2), (450, 0)], some "300,250"⟩
    ⟨"b_step_001.svg", [(100, -1), (500, 1)], [(50, 2), (450, 0)], some "100,50"⟩
    "1" (0, 1) (-1, 2) (by with_unfolding_all rfl) (by with_unfolding_all rfl)

end StarMeta

namespace Pullback

/-!
Shallow embedding of `generate_partition_kernel_pullback_svg.py`'s `main`.
The layout constants and the per-panel data-space → pixel-space transforms
`gx`, `gy`, `ux`, `uy`, `by` (`by` is a Lean keyword, so it is named `by_`
here) are taken verbatim from the source. `stdnorm_pdf` and `stdnorm_cdf`
are abstracted as an arbitrary function `ℚ → ℚ` (see the file header), so
the curve and probability theorems hold for every such function, in
particular the float implementations.
-/

def x_min : ℚ := -3
def x_max : ℚ := 3
def highlight_left : ℚ := 1.2
def highlight_right : ℚ := 1.6
def width : ℚ := 980
def height : ℚ := 680
def margin_left : ℚ := 64
def margin_right : ℚ := 40
def margin_top : ℚ := 42
def margin_bottom : ℚ := 80
def gap : ℚ := 78
def plot_w : ℚ := (width - margin_left - margin_right - gap) / 2
def top_plot_h : ℚ := 264
def middle_gap : ℚ := 120
def bar_plot_h : ℚ := height - margin_top - margin_bottom - top_plot_h - middle_gap
def left_x0 : ℚ := margin_left
def right_x0 : ℚ := margin_left + plot_w + gap
def y0 : ℚ := margin_top
def y_bar0 : ℚ := y0 + top_plot_h + middle_gap
def y_max_gauss : ℚ := 0.42
def y_max_unif : ℚ := 1.2
def y_max_bar : ℚ := 0.18

/-- Horizontal transform of the Gaussian panel. -/
def gx (x : ℚ) : ℚ := left_x0 + (x - x_min) / (x_max - x_min) * plot_w

/-- Vertical transform of the Gaussian panel. -/
def gy (y : ℚ) : ℚ := y0 + (y_max_gauss - y) / y_max_gauss * top_plot_h

/-- Horizontal transform of the uniform panel. -/
def ux (u : ℚ) : ℚ := right_x0 + u * plot_w

/-- Vertical transform of the uniform panel. -/
def uy (y : ℚ) : ℚ := y0 + (y_max_unif - y) / y_max_unif * top_plot_h

/-- Vertical transform of the bottom bar panel (`by` in the source). -/
def by_ (y : ℚ) : ℚ := y_bar0 + (y_max_bar - y) / y_max_bar * bar_plot_h

/-- The 241 sampled points of the full Gaussian curve. -/
def gauss_points (pdf : ℚ → ℚ) : List (ℚ × ℚ) :=
  (List.range 241).map fun (i : ℕ) =>
    (gx (x_min + (x_max - x_min) * (i : ℚ) / 240),
     gy (pdf (x_min + (x_max - x_min) * (i : ℚ) / 240)))

/-- The highlighted sub-path over `[highlight_left, highlight_right]`: a
baseline point, 81 on-curve samples, and a closing baseline point. -/
def highlight_points (pdf : ℚ → ℚ) : List (ℚ × ℚ) :=
  (gx highlight_left, gy 0) ::
    (((List.range 81).map fun (i : ℕ) =>
        (gx (highlight_left + (highlight_right - highlight_left) * (i : ℚ) / 80),
         gy (pdf (highlight_left + (highlight_right - highlight_left) * (i : ℚ) / 80)))) ++
      [(gx highlight_right, gy 0)])

/-- The discrete bins of the bottom panel: the left tail bin, one bin per
consecutive pair of inner edges, and the right tail bin (`None` encodes an
unbounded side). The `main` loop builds this from `inner_edges = x_lines`;
it is stated here over an arbitrary inner-edge list, as the spec's
`partition_probabilities(cdf, boundaries)` contract requires. -/
def bins_of (inner_edges : List ℚ) : List (Option ℚ × Option ℚ) :=
  match inner_edges with
  | [] => []
  | e :: rest =>
    ((none, some e) :: ((e :: rest).zip rest).map fun p => (some p.1, some p.2))
      ++ [(some ((e :: rest).getLast (List.cons_ne_nil e rest)), none)]

/-- The probability the `main` loop assigns to one bin: the CDF at the right
edge for the left tail, the CDF complement at the left edge for the right
tail, and a CDF difference for an inner bin. The `(none, none)` case is the
source's `raise ValueError("Invalid bin interval.")` arm; `bins_of` never
produces it. -/
def bin_prob (cdf : ℚ → ℚ) : Option ℚ × Option ℚ → ℚ
  | (none, some right) => cdf right
  | (some left, none) => 1 - cdf left
  | (some left, some right) => cdf right - cdf left
  | (none, none) => 0

/-- The per-bin probability list of the bottom panel (`probs` in `main`). -/
def partition_probabilities (cdf : ℚ → ℚ) (inner_edges : List ℚ) : List ℚ :=
  (bins_of inner_edges).map (bin_prob cdf)

/-- C9: vertical axis inversion. Every vertical data-space-to-pixel
transform of the layout (`gy` for the Gaussian panel, `uy` for the uniform
panel, `by` for the bar panel) is strictly decreasing: larger data values
map to strictly smaller pixel y-coordinates' complements, i.e. strictly
larger pixel coordinates for smaller data values. -/
theorem vertical_transforms_strictly_decreasing (y1 y2 : ℚ) (h : y1 < y2) :
    gy y2 < gy y1 ∧ uy y2 < uy y1 ∧ by_ y2 < by_ y1 := by
  have hg : ∀ y : ℚ, gy y = 306 - (4400 / 7) * y := by
    intro y
    simp only [gy, y0, margin_top, y_max_gauss, top_plot_h]
    ring
  have hu : ∀ y : ℚ, uy y = 306 - 220 * y := by
    intro y
    simp only [uy, y0, margin_top, y_max_unif, top_plot_h]
    ring
  have hb : ∀ y : ℚ, by_ y = 600 - (2900 / 3) * y := by
    intro y
    simp only [by_, y_bar0, y0, margin_top, top_plot_h, middle_gap, y_max_bar, bar_plot_h,
      height, margin_bottom]
    ring
  rw [hg, hg, hu, hu, hb, hb]
  refine ⟨by linarith, by linarith, by linarith⟩

/-- Witness for C9 at the data values 0 < 1. -/
theorem vertical_transforms_strictly_decreasing_witness :
    gy 1 < gy 0 ∧ uy 1 < uy 0 ∧ by_ 1 < by_ 0 :=
  vertical_transforms_strictly_decreasing 0 1 (by norm_num)

/-- C7: highlighted sub-path boundary continuity. The first and last
on-curve points of the highlighted segment (indices 1 and 81; indices 0 and
82 are the baseline closure points) are exactly the full Gaussian curve's
sampled points at x = 1.2 and x = 1.6, which occur there at sample indices
168 and 184. This holds for every pdf function, so the boundary points
agree with the full curve rather than being re-sampled to different
values. -/
theorem highlight_boundary_continuity (pdf : ℚ → ℚ) :
    (highlight_points pdf)[1]? = some (gx highlight_left, gy (pdf highlight_left)) ∧
    (highlight_points pdf)[81]? = some (gx highlight_right, gy (pdf highlight_right)) ∧
    (gauss_points pdf)[168]? = some (gx highlight_left, gy (pdf highlight_left)) ∧
    (gauss_points pdf)[184]? = some (gx highlight_right, gy (pdf highlight_right)) := by
  have h168 : x_min + (x_max - x_min) * (168 : ℚ) / 240 = highlight_left := by
    norm_num [x_min, x_max, highlight_left]
  have h184 : x_min + (x_max - x_min) * (184 : ℚ) / 240 = highlight_right := by
    norm_num [x_min, x_max, highlight_right]
  refine ⟨?_, ?_, ?_, ?_⟩
  · simp only [highlight_points, List.getElem?_cons_succ, List.getElem?_append,
      List.length_map, List.length_range]
    norm_num
  · simp only [highlight_points, List.getElem?_cons_succ, List.getElem?_append,
      List.length_map, List.length_range]
    norm_num
  · simp only [gauss_points]
    rw [List.getElem?_map]
    simp
    exact ⟨by rw [h168], by rw [h168]⟩
  · simp only [gauss_points]
    rw [List.getElem?_map]
    simp
    exact ⟨by rw [h184], by rw [h184]⟩

/-- Witness for C7 at the constant-zero pdf. -/
theorem highlight_boundary_continuity_witness :
    (highlight_points fun _ => 0)[1]?
        = some (gx highlight_left, gy ((fun _ => (0 : ℚ)) highlight_left)) ∧
    (highlight_points fun _ => 0)[81]?
        = some (gx highlight_right, gy ((fun _ => (0 : ℚ)) highlight_right)) ∧
    (gauss_points fun _ => 0)[168]?
        = some (gx highlight_left, gy ((fun _ => (0 : ℚ)) highlight_left)) ∧
    (gauss_points fun _ => 0)[184]?
        = some (gx highlight_right, gy ((fun _ => (0 : ℚ)) highlight_right)) :=
  highlight_boundary_continuity fun _ => 0

/-- Element `i` of a list zipped with its own tail is the pair of elements
`i` and `i + 1` of the list. -/
theorem zip_tail_getElem? : ∀ (l : List ℚ) (i : ℕ) (x y : ℚ),
    l[i]? = some x → l[i + 1]? = some y → (l.zip l.tail)[i]? = some (x, y)
  | [], _, _, _, hx, _ => by simp at hx
  | [_], 0, _, _, _, hy => by simp at hy
  | [_], _ + 1, _, _, hx, _ => by simp at hx
  | a :: b :: l', 0, x, y, hx, hy => by
    simp only [List.getElem?_cons_zero, List.getElem?_cons_succ, Option.some.injEq] at hx hy
    subst hx
    subst hy
    simp [List.zip_cons_cons]
  | a :: b :: l', i + 1, x, y, hx, hy => by
    have ih := zip_tail_getElem? (b :: l') i x y (by simpa using hx) (by simpa using hy)
    simpa [List.zip_cons_cons] using ih

/-- The inner-bin CDF differences telescope to the difference of the CDF at
the extremal edges. -/
theorem consec_diff_sum (cdf : ℚ → ℚ) : ∀ (e : ℚ) (rest : List ℚ),
    ((((e :: rest).zip rest).map fun p => cdf p.2 - cdf p.1).sum)
      = cdf ((e :: rest).getLast (List.cons_ne_nil e rest)) - cdf e
  | e, [] => by simp
  | e, b :: rest' => by
    have ih := consec_diff_sum cdf b rest'
    rw [List.getLast_cons (List.cons_ne_nil b rest')]
    simp only [List.zip_cons_cons, List.map_cons, List.sum_cons]
    rw [ih]
    ring

theorem pp_length (cdf : ℚ → ℚ) (e : ℚ) (rest : List ℚ) :
    (partition_probabilities cdf (e :: rest)).length = rest.length + 2 := by
  simp [partition_probabilities, bins_of, List.length_zip]

/-- The bin probabilities always sum to 1 exactly: the left tail, the
telescoping inner differences and the right tail complement cancel. -/
theorem pp_sum (cdf : ℚ → ℚ) (e : ℚ) (rest : List ℚ) :
    (partition_probabilities cdf (e :: rest)).sum = 1 := by
  simp only [partition_probabilities, bins_of, List.cons_append, List.map_cons,
    List.map_append, List.sum_cons, List.sum_append, List.map_map]
  have hmid : (((e :: rest).zip rest).map ((bin_prob cdf) ∘ fun p => (some p.1, some p.2))).sum
      = (((e :: rest).zip rest).map fun p => cdf p.2 - cdf p.1).sum := by
    rfl
  rw [hmid, consec_diff_sum cdf e rest]
  simp [bin_prob]

/-- C6: partition probabilities. For every non-empty strictly increasing
boundary list over any CDF function, the probability list has one more
entry than the boundary list plus one (n+1 boundaries give n+2 bins), its
first entry is the CDF at the first boundary, its inner entry `i + 1` is
the CDF difference across boundaries `i` and `i + 1`, its last entry is the
CDF complement at the last boundary, and the entries sum to exactly 1; in
particular for the boundaries [-1.2, -0.8, -0.4, 0, 0.4, 0.8, 1.2] (over
any CDF, hence over the standard normal one) it returns 8 values summing to
1 within 1e-9. -/
theorem partition_probabilities_spec (cdf : ℚ → ℚ) (edges : List ℚ)
    (hne : edges ≠ []) (hinc : edges.Chain' (· < ·)) :
    (partition_probabilities cdf edges).length = edges.length + 1 ∧
    (partition_probabilities cdf edges)[0]? = some (cdf (edges.head hne)) ∧
    (∀ i bi bj, edges[i]? = some bi → edges[i + 1]? = some bj →
      (partition_probabilities cdf edges)[i + 1]? = some (cdf bj - cdf bi)) ∧
    (partition_probabilities cdf edges).getLast? = some (1 - cdf (edges.getLast hne)) ∧
    (partition_probabilities cdf edges).sum = 1 ∧
    (partition_probabilities cdf [-1.2, -0.8, -0.4, 0, 0.4, 0.8, 1.2]).length = 8 ∧
    |(partition_probabilities cdf [-1.2, -0.8, -0.4, 0, 0.4, 0.8, 1.2]).sum - 1| ≤ 1e-9 := by
  obtain ⟨e, rest, rfl⟩ : ∃ e rest, edges = e :: rest := by
    cases edges with
    | nil => exact absurd rfl hne
    | cons a l => exact ⟨a, l, rfl⟩
  refine ⟨?_, ?_, ?_, ?_, pp_sum cdf e rest, ?_, ?_⟩
  · rw [pp_length cdf e rest]
    simp
  · simp [partition_probabilities, bins_of, bin_prob]
  · intro i bi bj hbi hbj
    have hbound : i + 1 < (e :: rest).length := (List.getElem?_eq_some.mp hbj).1
    have hmid : i < rest.length := by
      simpa using hbound
    simp only [partition_probabilities, bins_of, List.cons_append, List.map_cons,
      List.map_nil, List.getElem?_cons_succ, List.map_append]
    have hlen : i < (List.map (bin_prob cdf)
        (List.map (fun p => (some p.1, some p.2)) ((e :: rest).zip rest))).length := by
      simp only [List.length_map, List.length_zip, List.length_cons]
      omega
    rw [List.getElem?_append, if_pos hlen]
    rw [List.getElem?_map, List.getElem?_map]
    have hz := zip_tail_getElem? (e :: rest) i bi bj hbi (by simpa using hbj)
    rw [List.tail_cons] at hz
    rw [hz]
    rfl
  · simp only [partition_probabilities, bins_of, List.cons_append, List.map_cons,
      List.map_nil, List.map_append]
    rw [← List.cons_append, List.getLast?_concat]
    rfl
  · rw [pp_length cdf (-1.2) [-0.8, -0.4, 0, 0.4, 0.8, 1.2]]
    rfl
  · rw [pp_sum cdf (-1.2) [-0.8, -0.4, 0, 0.4, 0.8, 1.2]]
    norm_num

/-- Witness for C6 at the constant-zero CDF and the example boundary
list. -/
theorem partition_probabilities_spec_witness :
    (partition_probabilities (fun _ => 0) [-1.2, -0.8, -0.4, 0, 0.4, 0.8, 1.2]).length
        = ([(-1.2 : ℚ), -0.8, -0.4, 0, 0.4, 0.8, 1.2] : List ℚ).length + 1 ∧
    (partition_probabilities (fun _ => 0) [-1.2, -0.8, -0.4, 0, 0.4, 0.8, 1.2])[0]?
        = some ((fun _ => (0 : ℚ))
            (([(-1.2 : ℚ), -0.8, -0.4, 0, 0.4, 0.8, 1.2] : List ℚ).head (List.cons_ne_nil _ _))) ∧
    (∀ i bi bj, ([(-1.2 : ℚ), -0.8, -0.4, 0, 0.4, 0.8, 1.2] : List ℚ)[i]? = some bi →
      ([(-1.2 : ℚ), -0.8, -0.4, 0, 0.4, 0.8, 1.2] : List ℚ)[i + 1]? = some bj →
      (partition_probabilities (fun _ => 0) [-1.2, -0.8, -0.4, 0, 0.4, 0.8, 1.2])[i + 1]?
        = some ((fun _ => (0 : ℚ)) bj - (fun _ => (0 : ℚ)) bi)) ∧
    (partition_probabilities (fun _ => 0) [-1.2, -0.8, -0.4, 0, 0.4, 0.8, 1.2]).getLast?
        = some (1 - (fun _ => (0 : ℚ))
            (([(-1.2 : ℚ), -0.8, -0.4, 0, 0.4, 0.8, 1.2] : List ℚ).getLast (List.cons_ne_nil _ _))) ∧
    (partition_probabilities (fun _ => 0) [-1.2, -0.8, -0.4, 0, 0.4, 0.8, 1.2]).sum = 1 ∧
    (partition_probabilities (fun _ => 0) [-1.2, -0.8, -0.4, 0, 0.4, 0.8, 1.2]).length = 8 ∧
    |(partition_probabilities (fun _ => 0) [-1.2, -0.8, -0.4, 0, 0.4, 0.8, 1.2]).sum - 1| ≤ 1e-9 :=
  partition_probabilities_spec (fun _ => 0) [-1.2, -0.8, -0.4, 0, 0.4, 0.8, 1.2]
    (List.cons_ne_nil _ _) (by norm_num [List.chain'_cons])

end Pullback
